import Mathlib

/-!
Verification of the filtering-and-aggregation pipeline of
`hospital_streamlit_app.py` (the `analyze_hospital_data` function).

The pandas dataframe is embedded as a `List Record`; each pipeline step is
translated into an executable Lean function:

* lines 28-31 (sequential `isin` filters on the reassigned `df`) become
  `applyFilters`;
* lines 40-47 (metric tiles) become `computeSummaryMetrics`;
* line 55 (`value_counts` on `Outcome`) becomes `outcomeDistribution`;
* lines 66, 74, 96 (`groupby("Condition")[c].sum/mean().sort_values(ascending=False)`)
  become `costByCondition`, `avgCostByCondition`, `avgStayByCondition`;
* line 87 (`value_counts().nlargest(10)`) becomes `topConditions`;
* lines 106-111 (integrity metrics, computed on the *reassigned* `df`,
  i.e. the filtered view) become `dataIntegrityReport` / `appIntegrityReport`.

Modelling notes.
`pd.Series.mean()` of an empty series is NaN; the embedding returns
`Option ℚ` with `none` for that case.  `groupby` with its default
`sort=True` lists the groups in ascending key order.
`sort_values(ascending=False)` in modern pandas is stable: `nargsort`
reverses the values before its ascending argsort and reverses the
resulting indexer afterwards, so equal values keep their input order
(numpy's sort is itself stable on the small inputs of the concrete
theorems below).  `sortValuesDesc` reproduces exactly that: each later
element is inserted after equal-valued earlier ones, so ties of the
alphabetically-keyed `groupby` output stay in ascending key order, and
ties of `value_counts` stay in first-appearance order.
`value_counts` enumerates the distinct values in first-appearance order
before its descending sort, and `nlargest(10)` of an already descending
series is its 10-element prefix.  The four modelled columns are the ones
the pipeline reads (`Condition`, `Outcome`, `Cost`, `Length_of_Stay`);
rows are schema-valid with every modelled cell present, so
`df.isnull().sum().sum()` is 0 in the model.
-/

namespace Hospital

/-- One row of the hospital dataset: the four columns the pipeline reads. -/
structure Record where
  Condition : String
  Outcome : String
  Cost : ℚ
  Length_of_Stay : ℚ
deriving DecidableEq

/-- The two sidebar multiselect values (lines 24-25): a list of chosen
`Condition` values and a list of chosen `Outcome` values. -/
structure FilterSelection where
  conditions : List String
  outcomes : List String
deriving DecidableEq

/-- Lines 28-31: `if condition_filter: df = df[df["Condition"].isin(...)]`
then `if outcome_filter: df = df[df["Outcome"].isin(...)]`.  An empty
(falsy) selection list skips its filter. -/
def applyFilters (df : List Record) (s : FilterSelection) : List Record :=
  let df1 := if s.conditions.isEmpty then df
             else df.filter (fun r => s.conditions.contains r.Condition)
  if s.outcomes.isEmpty then df1
  else df1.filter (fun r => s.outcomes.contains r.Outcome)

/-- The four metric tiles of lines 40-47. -/
structure SummaryMetrics where
  totalPatients : Nat
  recoveryRate : ℚ
  totalCost : ℚ
  averageCost : Option ℚ
deriving DecidableEq

/-- Lines 40-47: row count; recovery rate with the explicit
`if df.shape[0] > 0 ... else 0` guard; `df['Cost'].sum()`;
`df['Cost'].mean()` (NaN on an empty frame, modelled as `none`). -/
def computeSummaryMetrics (view : List Record) : SummaryMetrics where
  totalPatients := view.length
  recoveryRate :=
    if 0 < view.length then
      ((view.filter (fun r => r.Outcome == "Recovered")).length : ℚ) / view.length * 100
    else 0
  totalCost := (view.map Record.Cost).sum
  averageCost :=
    if view.length = 0 then none
    else some ((view.map Record.Cost).sum / view.length)

/-- Append a key to the accumulator unless it was seen already
(first-appearance deduplication, as a hashtable over the column does). -/
def seenInsert (ks : List String) (k : String) : List String :=
  if ks.contains k then ks else ks ++ [k]

/-- The distinct values of column `f`, in order of first appearance. -/
def firstKeys (f : Record → String) (view : List Record) : List String :=
  view.foldl (fun acc r => seenInsert acc (f r)) []

/-- Insert a key into an alphabetically ascending list. -/
def insertAsc (k : String) : List String → List String
  | [] => [k]
  | h :: t => if k ≤ h then k :: h :: t else h :: insertAsc k t

/-- Ascending sort of the group keys (`groupby` default `sort=True`). -/
def alphaSort (ks : List String) : List String := ks.foldr insertAsc []

/-- Insert a labelled value into a descending-by-value list, after any
equal value already there: processing the input left to right with this
insertion reproduces the stable `sort_values(ascending=False)` (pandas
`nargsort` reverses the values before its ascending argsort and reverses
the indexer afterwards, so equal values keep their input order). -/
def insertDesc {β : Type} [LinearOrder β] (p : String × β) :
    List (String × β) → List (String × β)
  | [] => [p]
  | h :: t => if h.2 < p.2 then p :: h :: t else h :: insertDesc p t

/-- `sort_values(ascending=False)` on a labelled series (stable: equal
values keep their input order). -/
def sortValuesDesc {β : Type} [LinearOrder β] (l : List (String × β)) :
    List (String × β) :=
  l.foldl (fun acc p => insertDesc p acc) []

/-- The rows of the view whose `Condition` is `k`. -/
def rowsWith (view : List Record) (k : String) : List Record :=
  view.filter (fun r => r.Condition == k)

/-- `df.groupby("Condition")[col].agg()`: one `(key, aggregate)` pair per
distinct condition, keys in ascending order (`sort=True` default). -/
def groupbyCondition {β : Type} (agg : List Record → β) (view : List Record) :
    List (String × β) :=
  (alphaSort (firstKeys Record.Condition view)).map (fun k => (k, agg (rowsWith view k)))

/-- Group aggregate: sum of `Cost`. -/
def sumCost (rows : List Record) : ℚ := (rows.map Record.Cost).sum

/-- Group aggregate: mean of `Cost` (groups produced by `groupbyCondition`
are never empty, so the `rows.length = 0` case never arises there). -/
def meanCost (rows : List Record) : ℚ := (rows.map Record.Cost).sum / rows.length

/-- Group aggregate: mean of `Length_of_Stay`. -/
def meanStay (rows : List Record) : ℚ := (rows.map Record.Length_of_Stay).sum / rows.length

/-- Line 66: `df.groupby("Condition")["Cost"].sum().sort_values(ascending=False)`. -/
def costByCondition (view : List Record) : List (String × ℚ) :=
  sortValuesDesc (groupbyCondition sumCost view)

/-- Line 74: `df.groupby("Condition")["Cost"].mean().sort_values(ascending=False)`. -/
def avgCostByCondition (view : List Record) : List (String × ℚ) :=
  sortValuesDesc (groupbyCondition meanCost view)

/-- Line 96: `df.groupby("Condition")["Length_of_Stay"].mean().sort_values(ascending=False)`. -/
def avgStayByCondition (view : List Record) : List (String × ℚ) :=
  sortValuesDesc (groupbyCondition meanStay view)

/-- Number of rows whose column `f` equals `k`. -/
def countKey (f : Record → String) (view : List Record) (k : String) : Nat :=
  (view.filter (fun r => f r == k)).length

/-- `series.value_counts()`: distinct values in first-appearance order,
counted, then sorted descending by count. -/
def valueCounts (f : Record → String) (view : List Record) : List (String × Nat) :=
  sortValuesDesc ((firstKeys f view).map (fun k => (k, countKey f view k)))

/-- Line 55: `df["Outcome"].value_counts()`. -/
def outcomeDistribution (view : List Record) : List (String × Nat) :=
  valueCounts Record.Outcome view

/-- `df["Condition"].value_counts()` (line 87, before the `nlargest`). -/
def conditionCounts (view : List Record) : List (String × Nat) :=
  valueCounts Record.Condition view

/-- Line 87: `df["Condition"].value_counts().nlargest(10)`: the 10 largest
counts of an already descending series, i.e. its 10-element prefix. -/
def topConditions (view : List Record) : List (String × Nat) :=
  (conditionCounts view).take 10

/-- The five quantities of lines 106-111. -/
structure IntegrityMetrics where
  missingValueCount : Nat
  duplicateRecordCount : Nat
  invalidCostCount : Nat
  invalidStayCount : Nat
  totalIssues : Nat
  dataAccuracyPercent : ℚ
deriving DecidableEq

/-- `df.duplicated().sum()` (line 107): rows equal to some earlier row. -/
def dupCountAux : List Record → List Record → Nat
  | _, [] => 0
  | seen, r :: rest => (if r ∈ seen then 1 else 0) + dupCountAux (r :: seen) rest

/-- Lines 106-111 applied to a dataframe.  `missing_values`
(`df.isnull().sum().sum()`) is 0 because every modelled cell is present. -/
def dataIntegrityReport (df : List Record) : IntegrityMetrics :=
  let missing : Nat := 0
  let dups := dupCountAux [] df
  let invCost := (df.filter (fun r => decide (r.Cost < 0))).length
  let invStay := (df.filter (fun r => decide (r.Length_of_Stay < 0))).length
  let issues := missing + dups + invCost + invStay
  { missingValueCount := missing
    duplicateRecordCount := dups
    invalidCostCount := invCost
    invalidStayCount := invStay
    totalIssues := issues
    dataAccuracyPercent :=
      if 0 < df.length then ((df.length : ℚ) - issues) / df.length * 100 else 0 }

/-- The integrity report the app actually shows for a dataset and a
selection: lines 106-111 run after `df` has been reassigned to the
filtered view at lines 28-31, so they see the filtered view. -/
def appIntegrityReport (df : List Record) (s : FilterSelection) : IntegrityMetrics :=
  dataIntegrityReport (applyFilters df s)

/-- Descending-by-value, ascending-by-key lexicographic order: the order
in which `groupby(sort=True)` followed by the stable
`sort_values(ascending=False)` lists the groups (values descending; equal
values keep the ascending key order in which the groups arrive). -/
def descLex {β : Type} [LinearOrder β] (a b : String × β) : Prop :=
  b.2 < a.2 ∨ (b.2 = a.2 ∧ a.1 < b.1)

/-- Scenario 1 of the spec: three rows, conditions Flu/Flu/Cold, outcomes
Recovered/Deceased/Recovered, costs 100/200/50. -/
def scenarioOne : List Record :=
  [⟨"Flu", "Recovered", 100, 1⟩, ⟨"Flu", "Deceased", 200, 2⟩, ⟨"Cold", "Recovered", 50, 3⟩]

/-- A dataset with 12 distinct conditions: ten conditions with two rows
each and two conditions ("K", "L") with one row each (Scenario 5). -/
def conditionRows (c : String) (n : Nat) : List Record :=
  List.replicate n ⟨c, "Recovered", 1, 1⟩

/-- Scenario 5 of the spec: 12 distinct conditions with varying counts. -/
def scenarioTwelve : List Record :=
  conditionRows "A" 2 ++ conditionRows "B" 2 ++ conditionRows "C" 2 ++
  conditionRows "D" 2 ++ conditionRows "E" 2 ++ conditionRows "F" 2 ++
  conditionRows "G" 2 ++ conditionRows "H" 2 ++ conditionRows "I" 2 ++
  conditionRows "J" 2 ++ conditionRows "K" 1 ++ conditionRows "L" 1

/-! ### Properties of `applyFilters` -/

/-- The two sequential filters of lines 28-31 amount to one conjunctive
filter over the source rows. -/
theorem applyFilters_eq_filter (df : List Record) (s : FilterSelection) :
    applyFilters df s =
      df.filter (fun r =>
        (s.conditions.isEmpty || s.conditions.contains r.Condition) &&
        (s.outcomes.isEmpty || s.outcomes.contains r.Outcome)) := by
  unfold applyFilters
  cases hc : s.conditions.isEmpty <;> cases ho : s.outcomes.isEmpty <;>
    simp [List.filter_filter, Bool.and_comm]

/-- C5: `applyFilters` retains exactly the rows whose `Condition` is in
`selection.conditions` when that list is non-empty and, from that reduced
set, exactly the rows whose `Outcome` is in `selection.outcomes` when that
list is non-empty: the two sequential filters equal one filter by the
logical AND of the two membership conditions (an empty list passes every
row).  `applyFilters` is a total Lean function, so it never errors. -/
theorem C5_applyFilters_and_semantics (df : List Record) (s : FilterSelection) :
    applyFilters df s =
      df.filter (fun r =>
        decide (s.conditions = [] ∨ r.Condition ∈ s.conditions) &&
        decide (s.outcomes = [] ∨ r.Outcome ∈ s.outcomes)) := by
  rw [applyFilters_eq_filter]
  apply List.filter_congr
  intro r _
  cases s.conditions <;> cases s.outcomes <;> simp

/-- C6: the filtered view is a sublist of the source dataset — no rows are
added and survivors keep their relative order — and its length is bounded
by the source length. -/
theorem C6_applyFilters_sublist (d : List Record) (s : FilterSelection) :
    (applyFilters d s).Sublist d ∧ (applyFilters d s).length ≤ d.length := by
  have h : (applyFilters d s).Sublist d := by
    rw [applyFilters_eq_filter]; exact List.filter_sublist d
  exact ⟨h, h.length_le⟩

/-- C8: the FilterSelection with both lists empty is a pass-through —
both `if` guards of lines 28-31 are skipped and the dataset is returned
unchanged. -/
theorem C8_empty_selection_passthrough (d : List Record) :
    applyFilters d ⟨[], []⟩ = d := rfl

/-- C9: applying the same FilterSelection twice yields the same view as
applying it once (stated, as the claim does, for a non-empty selection;
the restriction is not needed). -/
theorem C9_applyFilters_idempotent (d : List Record) (s : FilterSelection)
    (hne : s.conditions ≠ [] ∨ s.outcomes ≠ []) :
    applyFilters (applyFilters d s) s = applyFilters d s := by
  rw [applyFilters_eq_filter d s, applyFilters_eq_filter, List.filter_filter]
  apply List.filter_congr
  intro r _
  simp [Bool.and_self]

/-- Witness for C9 at a concrete dataset and non-empty selection. -/
theorem C9_witness :
    ((FilterSelection.mk ["Flu"] []).conditions ≠ [] ∨
        (FilterSelection.mk ["Flu"] []).outcomes ≠ []) ∧
      applyFilters (applyFilters scenarioOne ⟨["Flu"], []⟩) ⟨["Flu"], []⟩ =
        applyFilters scenarioOne ⟨["Flu"], []⟩ :=
  ⟨Or.inl (by decide), C9_applyFilters_idempotent scenarioOne ⟨["Flu"], []⟩ (Or.inl (by decide))⟩

/-! ### C1: the integrity report is computed on the filtered view -/

/-- Counterexample to C1 as stated: the integrity report the app shows
(lines 106-111 run on the reassigned, filtered `df`) differs between
selections.  With one negative-cost "A" row and one clean "B" row,
selecting condition "B" reports no invalid cost, while the full dataset
has one. -/
theorem C1_counterexample :
    appIntegrityReport [⟨"A", "Recovered", -1, 1⟩, ⟨"B", "Recovered", 1, 1⟩] ⟨["B"], []⟩ ≠
      dataIntegrityReport [⟨"A", "Recovered", -1, 1⟩, ⟨"B", "Recovered", 1, 1⟩] := by
  decide

/-- C1 amended: the integrity report is a function of the filtered view
only: two selections that produce the same filtered view produce the
same report (and, as the counterexample shows, the report is NOT
independent of the FilterSelection). -/
theorem C1_integrity_report_of_view (d : List Record) (s₁ s₂ : FilterSelection)
    (h : applyFilters d s₁ = applyFilters d s₂) :
    appIntegrityReport d s₁ = appIntegrityReport d s₂ := by
  unfold appIntegrityReport
  rw [h]

/-- Witness for the amended C1 at a concrete dataset and two selections
with the same filtered view. -/
theorem C1_witness :
    applyFilters scenarioOne ⟨["Flu", "Cold"], []⟩ = applyFilters scenarioOne ⟨[], []⟩ ∧
      appIntegrityReport scenarioOne ⟨["Flu", "Cold"], []⟩ =
        appIntegrityReport scenarioOne ⟨[], []⟩ :=
  ⟨by decide, C1_integrity_report_of_view scenarioOne ⟨["Flu", "Cold"], []⟩ ⟨[], []⟩ (by decide)⟩

/-! ### C2: fallbacks on the empty filtered view -/

/-- Counterexample to C2 as stated: on an empty filtered view
`df['Cost'].mean()` is NaN (modelled `none`), not the fallback 0. -/
theorem C2_counterexample :
    (computeSummaryMetrics (applyFilters [⟨"Flu", "Recovered", 100, 2⟩] ⟨["Cold"], []⟩)).averageCost
        = none ∧
      (computeSummaryMetrics (applyFilters [⟨"Flu", "Recovered", 100, 2⟩] ⟨["Cold"], []⟩)).averageCost
        ≠ some 0 := by
  decide

/-- C2 amended: on the empty view, totalPatients, recoveryRate, totalCost
and dataAccuracyPercent all take the fallback value 0, and every grouped
view is the empty sequence, without any error; `averageCost`, however, is
undefined (pandas NaN, modelled `none`) rather than 0. -/
theorem C2_empty_view_fallbacks :
    computeSummaryMetrics [] = ⟨0, 0, 0, none⟩ ∧
    costByCondition [] = [] ∧
    avgCostByCondition [] = [] ∧
    avgStayByCondition [] = [] ∧
    topConditions [] = [] ∧
    outcomeDistribution [] = [] ∧
    (dataIntegrityReport []).dataAccuracyPercent = 0 := by
  decide

/-! ### Sorting lemmas -/

theorem insertDesc_perm {β : Type} [LinearOrder β] (p : String × β) (l : List (String × β)) :
    (insertDesc p l).Perm (p :: l) := by
  induction l with
  | nil => simp [insertDesc]
  | cons h t ih =>
    by_cases hc : h.2 < p.2
    · simp [insertDesc, hc]
    · simp only [insertDesc, if_neg hc]
      exact (ih.cons h).trans (List.Perm.swap p h t)

theorem mem_insertDesc {β : Type} [LinearOrder β] {p q : String × β} {l : List (String × β)} :
    q ∈ insertDesc p l ↔ q = p ∨ q ∈ l := by
  rw [(insertDesc_perm p l).mem_iff, List.mem_cons]

theorem sortValuesDesc_perm {β : Type} [LinearOrder β] (l : List (String × β)) :
    (sortValuesDesc l).Perm l := by
  have h : ∀ (l acc : List (String × β)),
      (l.foldl (fun ac p => insertDesc p ac) acc).Perm (l ++ acc) := by
    intro l
    induction l with
    | nil => intro acc; simp
    | cons x t ih =>
      intro acc
      simp only [List.foldl_cons]
      exact ((ih _).trans ((List.Perm.append_left t (insertDesc_perm x acc)).trans
        List.perm_middle)).trans (List.Perm.refl _)
  simpa using h l []

theorem insertDesc_sorted {β : Type} [LinearOrder β] (p : String × β)
    {l : List (String × β)} (hl : l.Pairwise (fun a b => b.2 ≤ a.2)) :
    (insertDesc p l).Pairwise (fun a b => b.2 ≤ a.2) := by
  induction l with
  | nil => simp [insertDesc]
  | cons h t ih =>
    rcases List.pairwise_cons.mp hl with ⟨hh, ht⟩
    by_cases hc : h.2 < p.2
    · simp only [insertDesc, if_pos hc]
      refine List.pairwise_cons.mpr ⟨?_, hl⟩
      intro b hb
      rcases List.mem_cons.mp hb with rfl | hb'
      · exact le_of_lt hc
      · exact le_trans (hh b hb') (le_of_lt hc)
    · simp only [insertDesc, if_neg hc]
      refine List.pairwise_cons.mpr ⟨?_, ih ht⟩
      intro b hb
      rcases mem_insertDesc.mp hb with rfl | hb'
      · exact not_lt.mp hc
      · exact hh b hb'

theorem sortValuesDesc_sorted {β : Type} [LinearOrder β] (l : List (String × β)) :
    (sortValuesDesc l).Pairwise (fun a b => b.2 ≤ a.2) := by
  have h : ∀ (l acc : List (String × β)),
      acc.Pairwise (fun a b => b.2 ≤ a.2) →
      (l.foldl (fun ac p => insertDesc p ac) acc).Pairwise (fun a b => b.2 ≤ a.2) := by
    intro l
    induction l with
    | nil => intro acc hacc; simpa using hacc
    | cons x t ih => intro acc hacc; exact ih _ (insertDesc_sorted x hacc)
  exact h l [] (by simp)

theorem insertDesc_pairwise_descLex {β : Type} [LinearOrder β] (p : String × β)
    {l : List (String × β)} (hkey : ∀ a ∈ l, a.1 < p.1) (hl : l.Pairwise descLex) :
    (insertDesc p l).Pairwise descLex := by
  induction l with
  | nil => simp [insertDesc]
  | cons h t ih =>
    rcases List.pairwise_cons.mp hl with ⟨hh, ht⟩
    by_cases hc : h.2 < p.2
    · simp only [insertDesc, if_pos hc]
      refine List.pairwise_cons.mpr ⟨?_, hl⟩
      intro b hb
      rcases List.mem_cons.mp hb with rfl | hb'
      · exact Or.inl hc
      · rcases hh b hb' with hbl | ⟨hbe, _⟩
        · exact Or.inl (lt_trans hbl hc)
        · exact Or.inl (by rw [hbe]; exact hc)
    · simp only [insertDesc, if_neg hc]
      refine List.pairwise_cons.mpr
        ⟨?_, ih (fun a ha => hkey a (List.mem_cons_of_mem h ha)) ht⟩
      intro b hb
      rcases mem_insertDesc.mp hb with rfl | hb'
      · rcases lt_or_eq_of_le (not_lt.mp hc) with hlt | heq
        · exact Or.inl hlt
        · exact Or.inr ⟨heq, hkey h (List.mem_cons_self h t)⟩
      · exact hh b hb'

theorem sortValuesDesc_pairwise_descLex {β : Type} [LinearOrder β]
    (l : List (String × β)) (hl : l.Pairwise (fun a b => a.1 < b.1)) :
    (sortValuesDesc l).Pairwise descLex := by
  have h : ∀ (l acc : List (String × β)),
      l.Pairwise (fun a b => a.1 < b.1) →
      acc.Pairwise descLex →
      (∀ a ∈ acc, ∀ b ∈ l, a.1 < b.1) →
      (l.foldl (fun ac p => insertDesc p ac) acc).Pairwise descLex := by
    intro l
    induction l with
    | nil => intro acc _ hacc _; simpa using hacc
    | cons x t ih =>
      intro acc hlp hacc hcross
      rcases List.pairwise_cons.mp hlp with ⟨hx, ht⟩
      simp only [List.foldl_cons]
      refine ih _ ht
        (insertDesc_pairwise_descLex x (fun a ha => hcross a ha x (List.mem_cons_self x t)) hacc)
        ?_
      intro a ha b hb
      rcases mem_insertDesc.mp ha with rfl | ha'
      · exact hx b hb
      · exact hcross a ha' b (List.mem_cons_of_mem x hb)
  exact h l [] hl (by simp) (by simp)

theorem insertAsc_perm (k : String) (l : List String) : (insertAsc k l).Perm (k :: l) := by
  induction l with
  | nil => simp [insertAsc]
  | cons h t ih =>
    by_cases hc : k ≤ h
    · simp [insertAsc, hc]
    · simp only [insertAsc, if_neg hc]
      exact (ih.cons h).trans (List.Perm.swap k h t)

theorem alphaSort_perm (l : List String) : (alphaSort l).Perm l := by
  induction l with
  | nil => simp [alphaSort]
  | cons h t ih =>
    have : alphaSort (h :: t) = insertAsc h (alphaSort t) := rfl
    rw [this]
    exact (insertAsc_perm h (alphaSort t)).trans (ih.cons h)

theorem insertAsc_sorted (k : String) {l : List String}
    (hl : l.Pairwise (fun a b => a ≤ b)) :
    (insertAsc k l).Pairwise (fun a b => a ≤ b) := by
  induction l with
  | nil => simp [insertAsc]
  | cons h t ih =>
    rcases List.pairwise_cons.mp hl with ⟨hh, ht⟩
    by_cases hc : k ≤ h
    · simp only [insertAsc, if_pos hc]
      refine List.pairwise_cons.mpr ⟨?_, hl⟩
      intro b hb
      rcases List.mem_cons.mp hb with rfl | hb'
      · exact hc
      · exact le_trans hc (hh b hb')
    · simp only [insertAsc, if_neg hc]
      refine List.pairwise_cons.mpr ⟨?_, ih ht⟩
      intro b hb
      rcases List.mem_cons.mp ((insertAsc_perm k t).mem_iff.mp hb) with rfl | hb'
      · exact le_of_lt (not_le.mp hc)
      · exact hh b hb'

theorem alphaSort_sorted (l : List String) :
    (alphaSort l).Pairwise (fun a b => a ≤ b) := by
  induction l with
  | nil => simp [alphaSort]
  | cons h t ih =>
    have : alphaSort (h :: t) = insertAsc h (alphaSort t) := rfl
    rw [this]
    exact insertAsc_sorted h ih

theorem alphaSort_sorted_lt {l : List String} (h : l.Nodup) :
    (alphaSort l).Pairwise (fun a b => a < b) := by
  have hnd : (alphaSort l).Nodup := h.perm (alphaSort_perm l).symm
  exact ((alphaSort_sorted l).and hnd).imp (fun hab => lt_of_le_of_ne hab.1 hab.2)

/-! ### Lemmas about `firstKeys` and `countKey` -/

theorem mem_seenInsert {ks : List String} {k x : String} :
    x ∈ seenInsert ks k ↔ x ∈ ks ∨ x = k := by
  by_cases hk : k ∈ ks
  · simp only [seenInsert, List.elem_eq_mem, decide_eq_true_eq, if_pos hk]
    constructor
    · exact fun h => Or.inl h
    · rintro (h | rfl)
      · exact h
      · exact hk
  · simp [seenInsert, List.elem_eq_mem, if_neg hk]

theorem seenInsert_nodup {ks : List String} (k : String) (h : ks.Nodup) :
    (seenInsert ks k).Nodup := by
  by_cases hk : k ∈ ks
  · simpa only [seenInsert, List.elem_eq_mem, decide_eq_true_eq, if_pos hk] using h
  · simp only [seenInsert, List.elem_eq_mem, decide_eq_true_eq, if_neg hk]
    simpa [List.nodup_append] using ⟨h, hk⟩

theorem firstKeys_foldl_nodup (f : Record → String) :
    ∀ (view : List Record) (acc : List String), acc.Nodup →
      (view.foldl (fun a r => seenInsert a (f r)) acc).Nodup := by
  intro view
  induction view with
  | nil => intro acc h; simpa using h
  | cons r t ih => intro acc h; exact ih _ (seenInsert_nodup (f r) h)

theorem firstKeys_nodup (f : Record → String) (view : List Record) :
    (firstKeys f view).Nodup :=
  firstKeys_foldl_nodup f view [] (by simp)

theorem mem_firstKeys_foldl (f : Record → String) :
    ∀ (view : List Record) (acc : List String) (x : String),
      x ∈ view.foldl (fun a r => seenInsert a (f r)) acc ↔
        x ∈ acc ∨ ∃ r ∈ view, f r = x := by
  intro view
  induction view with
  | nil => intro acc x; simp
  | cons r t ih =>
    intro acc x
    simp only [List.foldl_cons, ih, mem_seenInsert, List.mem_cons]
    constructor
    · rintro ((h | h) | ⟨r', hr', hfr⟩)
      · exact Or.inl h
      · exact Or.inr ⟨r, Or.inl rfl, h.symm⟩
      · exact Or.inr ⟨r', Or.inr hr', hfr⟩
    · rintro (h | ⟨r', (rfl | hr'), hfr⟩)
      · exact Or.inl (Or.inl h)
      · exact Or.inl (Or.inr hfr.symm)
      · exact Or.inr ⟨r', hr', hfr⟩

theorem mem_firstKeys (f : Record → String) (view : List Record) (x : String) :
    x ∈ firstKeys f view ↔ ∃ r ∈ view, f r = x := by
  unfold firstKeys
  rw [mem_firstKeys_foldl]
  simp

theorem countKey_cons (f : Record → String) (r : Record) (rest : List Record) (k : String) :
    countKey f (r :: rest) k = (if f r = k then 1 else 0) + countKey f rest k := by
  simp only [countKey, List.filter_cons]
  by_cases h : f r = k
  · simp [h, Nat.add_comm]
  · simp [h]

theorem countKey_pos (f : Record → String) {view : List Record} {k : String}
    (h : ∃ r ∈ view, f r = k) : 0 < countKey f view k := by
  rcases h with ⟨r, hr, hfr⟩
  have : r ∈ view.filter (fun x => f x == k) :=
    List.mem_filter.mpr ⟨hr, by simpa using hfr⟩
  exact List.length_pos.mpr (List.ne_nil_of_mem this)

theorem indicator_sum_zero (x : String) :
    ∀ (keys : List String), x ∉ keys →
      (keys.map (fun k => if x = k then 1 else 0)).sum = 0 := by
  intro keys
  induction keys with
  | nil => intro _; simp
  | cons h t ih =>
    intro hx
    have hxh : x ≠ h := fun he => hx (he ▸ List.mem_cons_self h t)
    have hxt : x ∉ t := fun ht => hx (List.mem_cons_of_mem h ht)
    simp [hxh, ih hxt]

theorem indicator_sum_one (x : String) :
    ∀ (keys : List String), keys.Nodup → x ∈ keys →
      (keys.map (fun k => if x = k then 1 else 0)).sum = 1 := by
  intro keys
  induction keys with
  | nil => intro _ h; simp at h
  | cons h t ih =>
    intro hnd hx
    rcases List.pairwise_cons.mp hnd with ⟨hht, htnd⟩
    by_cases hxh : x = h
    · subst hxh
      have hxt : x ∉ t := fun hmem => (hht x hmem) rfl
      simp [indicator_sum_zero x t hxt]
    · rcases List.mem_cons.mp hx with rfl | hxt
      · exact absurd rfl hxh
      · simp [hxh, ih htnd hxt]

theorem map_sum_add (g h : String → Nat) :
    ∀ (keys : List String),
      (keys.map (fun k => g k + h k)).sum = (keys.map g).sum + (keys.map h).sum := by
  intro keys
  induction keys with
  | nil => simp
  | cons a t ih => simp [ih]; omega

theorem sum_countKey (f : Record → String) :
    ∀ (view : List Record) (keys : List String), keys.Nodup →
      (∀ r ∈ view, f r ∈ keys) →
      (keys.map (fun k => countKey f view k)).sum = view.length := by
  intro view
  induction view with
  | nil =>
    intro keys _ _
    have : (keys.map (fun _ => (0 : Nat))).sum = 0 := by
      induction keys with
      | nil => simp
      | cons a t ih => simpa using ih
    simpa [countKey]
  | cons r t ih =>
    intro keys hnd hcov
    have hmap : keys.map (fun k => countKey f (r :: t) k) =
        keys.map (fun k => (if f r = k then 1 else 0) + countKey f t k) := by
      apply List.map_congr_left
      intro k _
      exact countKey_cons f r t k
    rw [hmap, map_sum_add]
    rw [indicator_sum_one (f r) keys hnd (hcov r (List.mem_cons_self r t))]
    rw [ih keys hnd (fun x hx => hcov x (List.mem_cons_of_mem r hx))]
    simp [Nat.add_comm]

/-! ### Lemmas about the grouped views -/

theorem groupbyCondition_map_fst {β : Type} (agg : List Record → β) (view : List Record) :
    (groupbyCondition agg view).map Prod.fst = alphaSort (firstKeys Record.Condition view) := by
  simp [groupbyCondition, List.map_map, Function.comp_def]

theorem groupbyCondition_key_lt {β : Type} [LinearOrder β] (agg : List Record → β)
    (view : List Record) :
    (groupbyCondition agg view).Pairwise (fun a b => a.1 < b.1) := by
  unfold groupbyCondition
  rw [List.pairwise_map]
  exact alphaSort_sorted_lt (firstKeys_nodup Record.Condition view)

/-- The common shape of the three `groupby("Condition") ... sort_values`
views: the keys are a permutation of the distinct conditions of the view
(one pair per distinct condition) and the pairs are strictly sorted with
values descending and equal values in ascending key order (`descLex`). -/
theorem sortedGroup_spec {β : Type} [LinearOrder β] (agg : List Record → β)
    (view : List Record) :
    ((sortValuesDesc (groupbyCondition agg view)).map Prod.fst).Perm
        (firstKeys Record.Condition view) ∧
      (sortValuesDesc (groupbyCondition agg view)).Pairwise descLex := by
  constructor
  · exact (((sortValuesDesc_perm _).map Prod.fst).trans
      (by rw [groupbyCondition_map_fst])).trans (alphaSort_perm _)
  · exact sortValuesDesc_pairwise_descLex _ (groupbyCondition_key_lt agg view)

/-- The pairs of `valueCounts` before sorting. -/
theorem valueCounts_perm (f : Record → String) (view : List Record) :
    (valueCounts f view).Perm
      ((firstKeys f view).map (fun k => (k, countKey f view k))) :=
  sortValuesDesc_perm _

theorem valueCounts_map_fst_perm (f : Record → String) (view : List Record) :
    ((valueCounts f view).map Prod.fst).Perm (firstKeys f view) := by
  refine ((valueCounts_perm f view).map Prod.fst).trans ?_
  simp [List.map_map, Function.comp_def]

theorem valueCounts_sorted (f : Record → String) (view : List Record) :
    (valueCounts f view).Pairwise (fun a b => b.2 ≤ a.2) :=
  sortValuesDesc_sorted _

theorem mem_valueCounts (f : Record → String) {view : List Record} {p : String × Nat}
    (h : p ∈ valueCounts f view) :
    p.1 ∈ firstKeys f view ∧ p.2 = countKey f view p.1 := by
  have hp : p ∈ (firstKeys f view).map (fun k => (k, countKey f view k)) :=
    (valueCounts_perm f view).mem_iff.mp h
  rcases List.mem_map.mp hp with ⟨k, hk, hpk⟩
  cases hpk
  exact ⟨hk, rfl⟩

/-! ### C3: grouped views are sorted, but ties are not in first-appearance order -/

/-- Counterexample to C3 as stated: conditions "B" and "A" first appear in
the order B, A and have equal cost sums, yet `costByCondition` lists A
before B — `groupby` orders the groups alphabetically and the stable
descending sort keeps equal values in that ascending key order, so ties
come out alphabetically, not in group-discovery order. -/
theorem C3_counterexample :
    firstKeys Record.Condition
        [⟨"B", "Recovered", 100, 1⟩, ⟨"A", "Recovered", 100, 2⟩] = ["B", "A"] ∧
      costByCondition [⟨"B", "Recovered", 100, 1⟩, ⟨"A", "Recovered", 100, 2⟩] =
        [("A", 100), ("B", 100)] ∧
      costByCondition [⟨"B", "Recovered", 100, 1⟩, ⟨"A", "Recovered", 100, 2⟩] ≠
        [("B", 100), ("A", 100)] := by
  have h : costByCondition [⟨"B", "Recovered", 100, 1⟩, ⟨"A", "Recovered", 100, 2⟩] =
      [("A", 100), ("B", 100)] := by
    simp +decide [costByCondition, sortValuesDesc, groupbyCondition, alphaSort, firstKeys,
      seenInsert, insertAsc, insertDesc, rowsWith, sumCost, List.filter_cons, List.filter_nil]
  refine ⟨by decide, h, ?_⟩
  rw [h]
  decide

/-- C3 amended: each of the three grouped views returns one pair per
distinct Condition of the filtered view and is strictly sorted with
values descending and conditions of equal aggregated value in ascending
(alphabetical) condition order — the ascending key order of the `groupby`
output, preserved by the stable descending sort — not in first-appearance
order. -/
theorem C3_grouped_views_sorted (view : List Record) :
    (((costByCondition view).map Prod.fst).Perm (firstKeys Record.Condition view) ∧
      (costByCondition view).Pairwise descLex) ∧
    (((avgCostByCondition view).map Prod.fst).Perm (firstKeys Record.Condition view) ∧
      (avgCostByCondition view).Pairwise descLex) ∧
    (((avgStayByCondition view).map Prod.fst).Perm (firstKeys Record.Condition view) ∧
      (avgStayByCondition view).Pairwise descLex) :=
  ⟨sortedGroup_spec sumCost view, sortedGroup_spec meanCost view,
    sortedGroup_spec meanStay view⟩

/-! ### C4: summary metrics -/

/-- C4: `computeSummaryMetrics` returns the row count, the guarded
recovery-rate formula and the cost sum, and on the Scenario-1 dataset it
yields totalPatients 3, recoveryRate 200/3 (≈66.67), totalCost 350 and
averageCost 350/3 (≈116.67). -/
theorem C4_summary_metrics :
    (∀ view : List Record,
      (computeSummaryMetrics view).totalPatients = view.length ∧
      (computeSummaryMetrics view).recoveryRate =
        (if view.length = 0 then 0 else
          (view.countP (fun r => r.Outcome == "Recovered") : ℚ) / view.length * 100) ∧
      (computeSummaryMetrics view).totalCost = (view.map Record.Cost).sum) ∧
    computeSummaryMetrics scenarioOne = ⟨3, 200 / 3, 350, some (350 / 3)⟩ := by
  constructor
  · intro view
    refine ⟨rfl, ?_, rfl⟩
    by_cases h : view.length = 0
    · simp [computeSummaryMetrics, h]
    · have hpos : 0 < view.length := Nat.pos_of_ne_zero h
      simp [computeSummaryMetrics, h, hpos, List.countP_eq_length_filter]
  · simp +decide [computeSummaryMetrics, scenarioOne, List.filter_cons, List.filter_nil]
    norm_num

/-! ### C7: top conditions -/

/-- C7: `topConditions` (limit 10) returns exactly min(10, number of
distinct conditions) pairs, sorted with no count out of order; every
omitted pair's count is bounded by every returned pair's count; and when
at most 10 distinct conditions exist the whole `value_counts` series is
returned. -/
theorem C7_top_conditions (view : List Record) :
    (topConditions view).length = min 10 (firstKeys Record.Condition view).length ∧
    (topConditions view).Pairwise (fun p q => q.2 ≤ p.2) ∧
    (∀ p, p ∈ conditionCounts view → p ∉ topConditions view →
      ∀ q, q ∈ topConditions view → p.2 ≤ q.2) ∧
    ((firstKeys Record.Condition view).length ≤ 10 →
      topConditions view = conditionCounts view) := by
  have hlen : (conditionCounts view).length = (firstKeys Record.Condition view).length := by
    have h1 := (valueCounts_perm Record.Condition view).length_eq
    simpa [conditionCounts] using h1
  refine ⟨?_, ?_, ?_, ?_⟩
  · simp [topConditions, List.length_take, hlen]
  · exact List.Pairwise.sublist (List.take_sublist 10 (conditionCounts view))
      (valueCounts_sorted Record.Condition view)
  · intro p hp hpt q hq
    have hsorted : ((conditionCounts view).take 10 ++
        (conditionCounts view).drop 10).Pairwise (fun a b => b.2 ≤ a.2) := by
      rw [List.take_append_drop]
      exact valueCounts_sorted Record.Condition view
    have hcross := (List.pairwise_append.mp hsorted).2.2
    have hp' : p ∈ (conditionCounts view).take 10 ++ (conditionCounts view).drop 10 := by
      rw [List.take_append_drop]
      exact hp
    rcases List.mem_append.mp hp' with h | h
    · exact absurd h hpt
    · exact hcross q hq p h
  · intro hle
    show (conditionCounts view).take 10 = conditionCounts view
    exact List.take_of_length_le (by omega)

/-- Witness for C7: on the 12-condition Scenario-5 dataset exactly 10
pairs are returned, the two count-1 conditions "K" and "L" are excluded,
and any omitted count is bounded by any returned count; on the small
Scenario-1 dataset (2 distinct conditions) the whole series is returned. -/
theorem C7_witness :
    (firstKeys Record.Condition scenarioTwelve).length = 12 ∧
    (topConditions scenarioTwelve).length = min 10 (firstKeys Record.Condition scenarioTwelve).length ∧
    ("K", 1) ∈ conditionCounts scenarioTwelve ∧
    ("K", 1) ∉ topConditions scenarioTwelve ∧
    ("L", 1) ∉ topConditions scenarioTwelve ∧
    ("A", 2) ∈ topConditions scenarioTwelve ∧
    (("K", 1) : String × Nat).2 ≤ (("A", 2) : String × Nat).2 ∧
    (firstKeys Record.Condition scenarioOne).length ≤ 10 ∧
    topConditions scenarioOne = conditionCounts scenarioOne :=
  ⟨by decide, (C7_top_conditions scenarioTwelve).1, by decide, by decide, by decide, by decide,
    (C7_top_conditions scenarioTwelve).2.2.1 ("K", 1) (by decide) (by decide) ("A", 2) (by decide),
    by decide, (C7_top_conditions scenarioOne).2.2.2 (by decide)⟩

/-! ### C10: the outcome distribution -/

/-- C10: the counts of `outcomeDistribution` sum to `totalPatients` of the
same view, every count is positive, the keys carry no duplicates, and the
keys are exactly the Outcome values present in the view. -/
theorem C10_outcome_distribution (view : List Record) :
    ((outcomeDistribution view).map Prod.snd).sum = (computeSummaryMetrics view).totalPatients ∧
    (∀ p, p ∈ outcomeDistribution view → 0 < p.2) ∧
    ((outcomeDistribution view).map Prod.fst).Nodup ∧
    (∀ k, k ∈ (outcomeDistribution view).map Prod.fst ↔ ∃ r ∈ view, r.Outcome = k) := by
  refine ⟨?_, ?_, ?_, ?_⟩
  · have h1 := ((valueCounts_perm Record.Outcome view).map Prod.snd).sum_eq
    have h2 : (((firstKeys Record.Outcome view).map
        (fun k => (k, countKey Record.Outcome view k))).map Prod.snd) =
        (firstKeys Record.Outcome view).map (fun k => countKey Record.Outcome view k) := by
      simp [List.map_map, Function.comp_def]
    have h3 := sum_countKey Record.Outcome view (firstKeys Record.Outcome view)
      (firstKeys_nodup Record.Outcome view)
      (fun r hr => (mem_firstKeys Record.Outcome view r.Outcome).mpr ⟨r, hr, rfl⟩)
    calc ((outcomeDistribution view).map Prod.snd).sum
        = (((firstKeys Record.Outcome view).map
            (fun k => (k, countKey Record.Outcome view k))).map Prod.snd).sum := h1
      _ = ((firstKeys Record.Outcome view).map
            (fun k => countKey Record.Outcome view k)).sum := by rw [h2]
      _ = view.length := h3
  · intro p hp
    rcases mem_valueCounts Record.Outcome hp with ⟨hk, hcnt⟩
    rcases (mem_firstKeys Record.Outcome view p.1).mp hk with ⟨r, hr, hfr⟩
    rw [hcnt]
    exact countKey_pos Record.Outcome ⟨r, hr, hfr⟩
  · exact (firstKeys_nodup Record.Outcome view).perm
      (valueCounts_map_fst_perm Record.Outcome view).symm
  · intro k
    show k ∈ (valueCounts Record.Outcome view).map Prod.fst ↔ _
    rw [(valueCounts_map_fst_perm Record.Outcome view).mem_iff]
    exact mem_firstKeys Record.Outcome view k

/-- Witness for C10 on a concrete two-outcome view. -/
theorem C10_witness :
    (("Deceased", 1) ∈
        outcomeDistribution [⟨"Flu", "Recovered", 100, 1⟩, ⟨"Flu", "Deceased", 200, 2⟩]) ∧
      0 < (("Deceased", 1) : String × Nat).2 ∧
      ("Recovered" ∈ (outcomeDistribution
          [⟨"Flu", "Recovered", 100, 1⟩, ⟨"Flu", "Deceased", 200, 2⟩]).map Prod.fst ↔
        ∃ r ∈ [(⟨"Flu", "Recovered", 100, 1⟩ : Record), ⟨"Flu", "Deceased", 200, 2⟩],
          r.Outcome = "Recovered") :=
  ⟨by decide,
    (C10_outcome_distribution [⟨"Flu", "Recovered", 100, 1⟩, ⟨"Flu", "Deceased", 200, 2⟩]).2.1
      ("Deceased", 1) (by decide),
    (C10_outcome_distribution [⟨"Flu", "Recovered", 100, 1⟩, ⟨"Flu", "Deceased", 200, 2⟩]).2.2.2
      "Recovered"⟩

end Hospital
